import Mathlib

/-!
Verification development for the `simes` encrypted-messaging module
(`simes/__init__.py`).

Modelling conventions (shallow embedding):

* Bytes are `Nat`s (values `< 256` in practice); Python `bytes` objects are
  `List Nat`.  Python strings are represented by their UTF-8 byte encodings,
  so `str.encode("utf8")` / `bytes.decode("utf8")` are identities in the
  model and `str.strip()` becomes `stripBytes` (dropping Python whitespace
  bytes at both ends).
* The AES block cipher supplied by the external `cryptography` library is
  modelled as an abstract family of block functions
  `E, D : List Nat → List Nat → List Nat` (key → 16-byte block → 16-byte
  block); theorems assume only the properties a block cipher under a valid
  key provides (`D key` inverts `E key` on 16-byte blocks, and `E key`
  preserves the block length).  CBC chaining and PKCS7 padding, whose exact
  behaviour the module depends on, are embedded concretely.
* `os.urandom(16)` (the fresh IV) is modelled by passing the IV as an
  explicit argument.
* A socket is a `Sock`: a queue of incoming chunks (`recv` returns at most
  the head chunk; an exhausted queue models a closed connection and makes
  `recv` return the empty packet) plus the current timeout setting
  (`settimeout`).  Real-time expiry of a timeout is not modelled, only the
  timeout *state* that `settimeout` manipulates.
* Python exceptions become `Except SimesError`; `SimesError.valueError`
  stands for the `ValueError` raised inside the `cryptography` library
  (invalid padding bytes / data not a multiple of the block size) and
  `SimesError.overflowError` for `OverflowError` from `int.to_bytes`.
  A send function returning `.error` has written nothing to the socket
  (the only write, `sock.sendall`, is the final statement of each sender),
  so the `.ok` payload of a sender is exactly the bytes written.
-/

/-- Errors raised by the module: the five exception classes it defines,
plus `ConnectionError`, the library's `ValueError` and `OverflowError`. -/
inductive SimesError where
  | unknownSender
  | nameTooLong
  | messageTooLong
  | invalidStatus
  | paddingValidation
  | connectionBroken
  | valueError
  | overflowError
deriving DecidableEq, Repr

/-- Decidable equality for `Except`, so concrete runs of the model can be
settled by `decide`. -/
instance exceptDecEq {ε α} [DecidableEq ε] [DecidableEq α] :
    DecidableEq (Except ε α) := fun x y =>
  match x, y with
  | .ok a, .ok b => decidable_of_iff (a = b) (by simp)
  | .error a, .error b => decidable_of_iff (a = b) (by simp)
  | .ok _, .error _ => isFalse (fun h => Except.noConfusion h)
  | .error _, .ok _ => isFalse (fun h => Except.noConfusion h)

/-- SIMES_IV_SIZE. -/
def SIMES_IV_SIZE : Nat := 16

/-- SIMES_SENDER_SIZE. -/
def SIMES_SENDER_SIZE : Nat := 16

/-- SIMES_MESSAGE_MAX_SIZE_VARIABLE. -/
def SIMES_MESSAGE_MAX_SIZE_VARIABLE : Nat := 16

/-- SIMES_MESSAGE_MAX_SIZE = 2 ^ (16 * 8). -/
def SIMES_MESSAGE_MAX_SIZE : Nat := 2 ^ (SIMES_MESSAGE_MAX_SIZE_VARIABLE * 8)

/-- SIMES_STATUS_MAX_SIZE. -/
def SIMES_STATUS_MAX_SIZE : Nat := 16

/-- SIMES_AVAILABLE_STATUS, each status string as its UTF-8 bytes:
OK, ERROR, HANDSHAKE, ACCEPTED, NOT_ACCEPTED, START, STOP, PAUSE, RESUME. -/
def SIMES_AVAILABLE_STATUS : List (List Nat) :=
  [ [79, 75],
    [69, 82, 82, 79, 82],
    [72, 65, 78, 68, 83, 72, 65, 75, 69],
    [65, 67, 67, 69, 80, 84, 69, 68],
    [78, 79, 84, 95, 65, 67, 67, 69, 80, 84, 69, 68],
    [83, 84, 65, 82, 84],
    [83, 84, 79, 80],
    [80, 65, 85, 83, 69],
    [82, 69, 83, 85, 77, 69] ]

/-- Bytewise XOR of two byte sequences (the CBC chaining operation). -/
def xorBytes (a b : List Nat) : List Nat :=
  List.zipWith (fun x y => x ^^^ y) a b

/-- Python whitespace bytes stripped by `str.strip()` (space, tab, LF, VT,
FF, CR). -/
def isPySpace (b : Nat) : Bool :=
  b == 32 || b == 9 || b == 10 || b == 11 || b == 12 || b == 13

/-- Model of `str.strip()` at the byte level: drop whitespace bytes from
both ends. -/
def stripBytes (bs : List Nat) : List Nat :=
  ((bs.dropWhile isPySpace).reverse.dropWhile isPySpace).reverse

/-- Left-pad a byte sequence to width `w` with the byte `fill`
(the `b"\x20" * (w - len(bs)) + bs` pattern of the module). -/
def padLeftWith (w : Nat) (fill : Nat) (bs : List Nat) : List Nat :=
  List.replicate (w - bs.length) fill ++ bs

/-- Big-endian base-256 digits of `n`, exactly `l` bytes (the value encoded
by Python `n.to_bytes(l, "big")` when it does not overflow). -/
def natToBytesBE : Nat → Nat → List Nat
  | 0, _ => []
  | l + 1, n => natToBytesBE l (n / 256) ++ [n % 256]

/-- Model of Python `n.to_bytes(l, byteorder="big")`, which raises
`OverflowError` when `n` does not fit in `l` bytes. -/
def intToBytesBE (n : Nat) (l : Nat) : Except SimesError (List Nat) :=
  if n < 2 ^ (8 * l) then .ok (natToBytesBE l n) else .error .overflowError

/-- Model of Python `int.from_bytes(bs, byteorder="big")`. -/
def intFromBytesBE (bs : List Nat) : Nat :=
  bs.foldl (fun a b => 256 * a + b) 0

/-- PKCS7 padding at block size 16, as applied by
`padding.PKCS7(128).padder()`: append `k` copies of the byte `k`, where
`k = 16 - len(data) % 16` (so always between 1 and 16). -/
def pkcs7Pad (data : List Nat) : List Nat :=
  let padLen := 16 - data.length % 16
  data ++ List.replicate padLen padLen

/-- PKCS7 unpadding at block size 16, as performed by
`padding.PKCS7(128).unpadder()`: the input must be nonempty and a multiple
of 16 bytes, its last byte `k` must satisfy `1 ≤ k ≤ 16`, and the last `k`
bytes must all equal `k`; otherwise the library raises `ValueError`. -/
def pkcs7Unpad (data : List Nat) : Except SimesError (List Nat) :=
  if data.length = 0 ∨ data.length % 16 ≠ 0 then .error .valueError
  else
    match data.getLast? with
    | none => .error .valueError
    | some k =>
      if 1 ≤ k ∧ k ≤ 16 ∧ (data.drop (data.length - k)).all (fun b => b == k) then
        .ok (data.take (data.length - k))
      else .error .valueError

/-- CBC-mode encryption, fuelled recursion (one unit of fuel per input
byte suffices): encrypt the first 16-byte block XORed with the previous
ciphertext block (initially the IV), then recurse on the rest. -/
def cbcEncryptAux (E : List Nat → List Nat) : Nat → List Nat → List Nat → List Nat
  | 0, _, _ => []
  | fuel + 1, prev, data =>
    if data = [] then []
    else
      let c := E (xorBytes (data.take 16) prev)
      c ++ cbcEncryptAux E fuel c (data.drop 16)

/-- CBC-mode encryption of `data` (a multiple of 16 bytes) with previous
block `prev`. -/
def cbcEncrypt (E : List Nat → List Nat) (prev data : List Nat) : List Nat :=
  cbcEncryptAux E data.length prev data

/-- CBC-mode decryption, fuelled recursion mirroring `cbcEncryptAux`. -/
def cbcDecryptAux (D : List Nat → List Nat) : Nat → List Nat → List Nat → List Nat
  | 0, _, _ => []
  | fuel + 1, prev, data =>
    if data = [] then []
    else
      let c := data.take 16
      xorBytes (D c) prev ++ cbcDecryptAux D fuel c (data.drop 16)

/-- CBC-mode decryption of `data` (a multiple of 16 bytes) with previous
block `prev`. -/
def cbcDecrypt (D : List Nat → List Nat) (prev data : List Nat) : List Nat :=
  cbcDecryptAux D data.length prev data

/-- Model of `encryptRaw(data, key, pad_data)`: AES-CBC encryption under
`key` with the fresh random IV passed explicitly.  With `pad_data` the
plaintext is PKCS7-padded first; without it the cipher's `finalize` raises
`ValueError` unless the plaintext is already a multiple of 16 bytes.
Returns `iv + encrypted_data`. -/
def encryptRaw (E : List Nat → List Nat → List Nat) (key iv data : List Nat)
    (pad_data : Bool) : Except SimesError (List Nat) :=
  if pad_data then
    .ok (iv ++ cbcEncrypt (E key) iv (pkcs7Pad data))
  else if data.length % 16 ≠ 0 then .error .valueError
  else .ok (iv ++ cbcEncrypt (E key) iv data)

/-- Model of `decryptRaw(data, key, pad_data)`: split the first 16 bytes as
the IV (the cipher raises `ValueError` on a short IV), CBC-decrypt the rest
(`ValueError` unless a multiple of 16 bytes), then unpad if `pad_data`.
Note the module has no handler translating the library's padding
`ValueError` into its own `PaddingValidationError`. -/
def decryptRaw (D : List Nat → List Nat → List Nat) (key data : List Nat)
    (pad_data : Bool) : Except SimesError (List Nat) :=
  let iv := data.take SIMES_IV_SIZE
  let encrypted_data := data.drop SIMES_IV_SIZE
  if iv.length ≠ 16 then .error .valueError
  else if encrypted_data.length % 16 ≠ 0 then .error .valueError
  else
    let pt := cbcDecrypt (D key) iv encrypted_data
    if pad_data then pkcs7Unpad pt else .ok pt

/-- Socket state: the queue of incoming data chunks (each `recv` call
returns at most the head chunk; an empty queue models a closed remote, so
`recv` returns the empty packet) and the current timeout setting. -/
structure Sock where
  chunks : List (List Nat)
  timeout : Option Nat
deriving DecidableEq, Repr

/-- Model of `sock.settimeout(t)`. -/
def settimeout (s : Sock) (t : Option Nat) : Sock :=
  { s with timeout := t }

/-- Model of `sock.recv(n)`: return up to `n` bytes from the head chunk
(the empty packet once the queue is exhausted, i.e. the remote closed). -/
def sockRecv (s : Sock) (n : Nat) : List Nat × Sock :=
  match s.chunks with
  | [] => ([], s)
  | c :: rest =>
    if c.length ≤ n then (c, { s with chunks := rest })
    else (c.take n, { s with chunks := c.drop n :: rest })

/-- Loop body of `recv_all`, fuelled (each iteration adds at least one
byte, so `expected + 1` units of fuel always suffice): while fewer than
`expected` bytes are accumulated, `recv` the remainder; an empty packet
raises `ConnectionError`. -/
def recvAllAux : Nat → Sock → List Nat → Nat → Except SimesError (List Nat × Sock)
  | 0, _, _, _ => .error .connectionBroken
  | fuel + 1, sock, data, expected =>
    if data.length < expected then
      let (packet, sock') := sockRecv sock (expected - data.length)
      if packet = [] then .error .connectionBroken
      else recvAllAux fuel sock' (data ++ packet) expected
    else .ok (data, sock)

/-- Model of `recv_all(sock, expected_size)`: accumulate reads starting
from the empty buffer until `expected_size` bytes are collected, raising
`ConnectionError` on a zero-length read. -/
def recv_all (sock : Sock) (expected_size : Nat) : Except SimesError (List Nat × Sock) :=
  recvAllAux (expected_size + 1) sock [] expected_size

/-- KeyStore: the `keys_dict` mapping sender identity (UTF-8 bytes) to key
bytes, as an association list. -/
abbrev KeyStore : Type := List (List Nat × List Nat)

/-- Model of `sendEncryptedRaw(sock, sender, data, key)`: encrypt with
padding, validate the sender length and message size, and build
`sender_bytes + size_bytes + encrypted_data`.  The returned `.ok` value is
the byte sequence handed to `sock.sendall`; an `.error` means the function
raised before writing anything. -/
def sendEncryptedRaw (E : List Nat → List Nat → List Nat) (iv sender data key : List Nat) :
    Except SimesError (List Nat) :=
  match encryptRaw E key iv data true with
  | .error e => .error e
  | .ok encrypted_data =>
    if sender.length > SIMES_SENDER_SIZE then .error .nameTooLong
    else if encrypted_data.length > SIMES_MESSAGE_MAX_SIZE then .error .messageTooLong
    else
      let sender_bytes := padLeftWith SIMES_SENDER_SIZE 32 sender
      match intToBytesBE encrypted_data.length SIMES_MESSAGE_MAX_SIZE_VARIABLE with
      | .error e => .error e
      | .ok size_bytes =>
        let size_bytes :=
          List.replicate (SIMES_MESSAGE_MAX_SIZE_VARIABLE - size_bytes.length) 0 ++ size_bytes
        .ok (sender_bytes ++ size_bytes ++ encrypted_data)

/-- Model of `receiveEncryptedRaw(sock, keys_dict, timeout)`: set the
timeout, read the 16-byte sender and 16-byte size fields, look the stripped
sender up in `keys_dict` (raising `UnknownSenderError` on a miss), read
`size` bytes, decrypt with padding, and only then reset the timeout to
blocking.  The result carries the final socket state (also on error paths,
where the Python function raises without restoring the timeout) and the
key store as the function left it. -/
def receiveEncryptedRaw (D : List Nat → List Nat → List Nat) (sock : Sock)
    (keys_dict : KeyStore) (timeout : Option Nat) :
    Except SimesError (List Nat × List Nat) × Sock × KeyStore :=
  let sock := settimeout sock timeout
  match recv_all sock SIMES_SENDER_SIZE with
  | .error e => (.error e, sock, keys_dict)
  | .ok (sender_bytes, sock) =>
    match recv_all sock SIMES_MESSAGE_MAX_SIZE_VARIABLE with
    | .error e => (.error e, sock, keys_dict)
    | .ok (size_bytes, sock) =>
      let sender := stripBytes sender_bytes
      let size := intFromBytesBE size_bytes
      match keys_dict.lookup sender with
      | none => (.error .unknownSender, sock, keys_dict)
      | some key =>
        match recv_all sock size with
        | .error e => (.error e, sock, keys_dict)
        | .ok (encrypted_data, sock) =>
          match decryptRaw D key encrypted_data true with
          | .error e => (.error e, sock, keys_dict)
          | .ok data => (.ok (sender, data), settimeout sock none, keys_dict)

/-- Model of `receiveEncryptedJSON(sock, keys_dict)`: delegate to
`receiveEncryptedRaw` (no timeout argument, hence `none`), then decode the
payload with `json.loads`, modelled by an abstract parser `jsonLoads`. -/
def receiveEncryptedJSON {α : Type} (D : List Nat → List Nat → List Nat)
    (jsonLoads : List Nat → Except SimesError α) (sock : Sock) (keys_dict : KeyStore) :
    Except SimesError (List Nat × α) × Sock × KeyStore :=
  match receiveEncryptedRaw D sock keys_dict none with
  | (.error e, s, k) => (.error e, s, k)
  | (.ok (sender, data), s, k) =>
    match jsonLoads data with
    | .error e => (.error e, s, k)
    | .ok v => (.ok (sender, v), s, k)

/-- Model of `sendStatus(sock, sender, status, key)`: validate the status
against the fixed vocabulary and the sender length, space-left-pad both to
16 bytes, encrypt the status block with padding disabled, and build
`sender_bytes + encrypted_status` (the bytes handed to `sock.sendall`). -/
def sendStatus (E : List Nat → List Nat → List Nat) (iv sender status key : List Nat) :
    Except SimesError (List Nat) :=
  if status ∉ SIMES_AVAILABLE_STATUS then .error .invalidStatus
  else if sender.length > SIMES_SENDER_SIZE then .error .nameTooLong
  else
    let sender_bytes := padLeftWith SIMES_SENDER_SIZE 32 sender
    let status_bytes := padLeftWith SIMES_STATUS_MAX_SIZE 32 status
    match encryptRaw E key iv status_bytes false with
    | .error e => .error e
    | .ok encrypted_status => .ok (sender_bytes ++ encrypted_status)

/-- Model of `receiveStatus(sock, keys_dict, timeout)`: set the timeout,
read the 16-byte sender field, look the stripped sender up (raising
`UnknownSenderError` on a miss), read the 32-byte `iv + ciphertext` body,
decrypt without padding, strip the status, and only then reset the timeout
to blocking. -/
def receiveStatus (D : List Nat → List Nat → List Nat) (sock : Sock)
    (keys_dict : KeyStore) (timeout : Option Nat) :
    Except SimesError (List Nat × List Nat) × Sock × KeyStore :=
  let sock := settimeout sock timeout
  match recv_all sock SIMES_SENDER_SIZE with
  | .error e => (.error e, sock, keys_dict)
  | .ok (sender_bytes, sock) =>
    let sender := stripBytes sender_bytes
    match keys_dict.lookup sender with
    | none => (.error .unknownSender, sock, keys_dict)
    | some key =>
      match recv_all sock (SIMES_IV_SIZE + SIMES_STATUS_MAX_SIZE) with
      | .error e => (.error e, sock, keys_dict)
      | .ok (encrypted_status, sock) =>
        match decryptRaw D key encrypted_status false with
        | .error e => (.error e, sock, keys_dict)
        | .ok status => (.ok (sender, stripBytes status), settimeout sock none, keys_dict)

/-! Helper lemmas about the byte-level primitives. -/

theorem xorBytes_length (a b : List Nat) :
    (xorBytes a b).length = min a.length b.length := by
  simp [xorBytes]

theorem xorBytes_cancel (a b : List Nat) (h : a.length = b.length) :
    xorBytes (xorBytes a b) b = a := by
  induction a generalizing b with
  | nil => cases b <;> simp [xorBytes]
  | cons x xs ih =>
    cases b with
    | nil => simp at h
    | cons y ys =>
      simp only [List.length_cons] at h
      simp only [xorBytes, List.zipWith_cons_cons]
      rw [Nat.xor_cancel_right]
      exact congrArg (x :: ·) (ih ys (by omega))

theorem pkcs7Pad_length (data : List Nat) :
    (pkcs7Pad data).length = 16 * (data.length / 16 + 1) := by
  simp only [pkcs7Pad, List.length_append, List.length_replicate]
  omega

theorem pkcs7Pad_length_mod (data : List Nat) : (pkcs7Pad data).length % 16 = 0 := by
  rw [pkcs7Pad_length]; omega

theorem pkcs7Unpad_append_replicate (data : List Nat) (k : Nat)
    (h1 : 1 ≤ k) (h2 : k ≤ 16) (hmod : (data.length + k) % 16 = 0) :
    pkcs7Unpad (data ++ List.replicate k k) = .ok data := by
  have hrep : List.replicate k k = List.replicate (k - 1) k ++ [k] := by
    have h3 : k - 1 + 1 = k := by omega
    rw [← h3, List.replicate_succ', h3]
  have hlen : (data ++ List.replicate k k).length = data.length + k := by
    simp
  have hgl : (data ++ List.replicate k k).getLast? = some k := by
    rw [hrep, ← List.append_assoc, List.getLast?_concat]
  have hdrop : (data ++ List.replicate k k).drop (data.length + k - k)
      = List.replicate k k := by
    rw [show data.length + k - k = data.length by omega]
    exact List.drop_left' rfl
  have htake : (data ++ List.replicate k k).take (data.length + k - k) = data := by
    rw [show data.length + k - k = data.length by omega]
    exact List.take_left' rfl
  rw [pkcs7Unpad]
  simp only [hlen, hgl,
    if_neg (show ¬(data.length + k = 0 ∨ (data.length + k) % 16 ≠ 0) by omega)]
  rw [hdrop, htake, if_pos ⟨h1, h2, by simp [List.all_replicate]⟩]

theorem pkcs7Unpad_pkcs7Pad (data : List Nat) :
    pkcs7Unpad (pkcs7Pad data) = .ok data := by
  have h : data.length % 16 < 16 := Nat.mod_lt _ (by omega)
  exact pkcs7Unpad_append_replicate data (16 - data.length % 16)
    (by omega) (by omega) (by omega)

theorem cbcEncryptAux_length (E : List Nat → List Nat)
    (hE : ∀ b : List Nat, b.length = 16 → (E b).length = 16) :
    ∀ fuel data prev, data.length ≤ fuel → data.length % 16 = 0 →
      prev.length = 16 → (cbcEncryptAux E fuel prev data).length = data.length := by
  intro fuel
  induction fuel with
  | zero =>
    intro data prev hf _ _
    have : data = [] := List.length_eq_zero.mp (by omega)
    subst this
    rfl
  | succ n ih =>
    intro data prev hf hmod hprev
    by_cases hd : data = []
    · subst hd; rfl
    · have hpos : 0 < data.length := List.length_pos.mpr hd
      have h16 : 16 ≤ data.length := by omega
      have htake : (data.take 16).length = 16 := by
        simp [List.length_take]; omega
      have hx : (xorBytes (data.take 16) prev).length = 16 := by
        rw [xorBytes_length, htake, hprev]; simp
      have hc : (E (xorBytes (data.take 16) prev)).length = 16 := hE _ hx
      simp only [cbcEncryptAux, if_neg hd]
      rw [List.length_append, hc,
        ih (data.drop 16) _ (by simp [List.length_drop]; omega)
          (by simp [List.length_drop]; omega) hc]
      simp [List.length_drop]; omega

theorem cbcDecryptAux_cbcEncryptAux (E D : List Nat → List Nat)
    (hE : ∀ b : List Nat, b.length = 16 → (E b).length = 16)
    (hInv : ∀ b : List Nat, b.length = 16 → D (E b) = b) :
    ∀ fuel data prev, data.length ≤ fuel → data.length % 16 = 0 →
      prev.length = 16 →
      cbcDecryptAux D fuel prev (cbcEncryptAux E fuel prev data) = data := by
  intro fuel
  induction fuel with
  | zero =>
    intro data prev hf _ _
    have : data = [] := List.length_eq_zero.mp (by omega)
    subst this
    rfl
  | succ n ih =>
    intro data prev hf hmod hprev
    by_cases hd : data = []
    · subst hd; rfl
    · have hpos : 0 < data.length := List.length_pos.mpr hd
      have h16 : 16 ≤ data.length := by omega
      have htake : (data.take 16).length = 16 := by
        simp [List.length_take]; omega
      have hx : (xorBytes (data.take 16) prev).length = 16 := by
        rw [xorBytes_length, htake, hprev]; simp
      have hc : (E (xorBytes (data.take 16) prev)).length = 16 := hE _ hx
      simp only [cbcEncryptAux, if_neg hd]
      have hcons : E (xorBytes (data.take 16) prev)
          ++ cbcEncryptAux E n (E (xorBytes (data.take 16) prev)) (data.drop 16) ≠ [] := by
        intro habs
        have := congrArg List.length habs
        simp [List.length_append, hc] at this
      simp only [cbcDecryptAux, if_neg hcons]
      rw [List.take_left' hc, List.drop_left' hc, hInv _ hx,
        xorBytes_cancel _ _ (by rw [htake, hprev]),
        ih (data.drop 16) _ (by simp [List.length_drop]; omega)
          (by simp [List.length_drop]; omega) hc,
        List.take_append_drop]

theorem cbcEncrypt_length (E : List Nat → List Nat)
    (hE : ∀ b : List Nat, b.length = 16 → (E b).length = 16)
    (prev data : List Nat) (hmod : data.length % 16 = 0) (hprev : prev.length = 16) :
    (cbcEncrypt E prev data).length = data.length :=
  cbcEncryptAux_length E hE data.length data prev (Nat.le_refl _) hmod hprev

theorem cbcDecrypt_cbcEncrypt (E D : List Nat → List Nat)
    (hE : ∀ b : List Nat, b.length = 16 → (E b).length = 16)
    (hInv : ∀ b : List Nat, b.length = 16 → D (E b) = b)
    (prev data : List Nat) (hmod : data.length % 16 = 0) (hprev : prev.length = 16) :
    cbcDecrypt D prev (cbcEncrypt E prev data) = data := by
  unfold cbcDecrypt cbcEncrypt
  rw [cbcEncryptAux_length E hE data.length data prev (Nat.le_refl _) hmod hprev]
  exact cbcDecryptAux_cbcEncryptAux E D hE hInv data.length data prev
    (Nat.le_refl _) hmod hprev

theorem decryptRaw_encryptRaw_padded (E D : List Nat → List Nat → List Nat)
    (key iv data : List Nat) (hiv : iv.length = 16)
    (hE : ∀ b : List Nat, b.length = 16 → (E key b).length = 16)
    (hInv : ∀ b : List Nat, b.length = 16 → D key (E key b) = b) :
    (encryptRaw E key iv data true).bind (fun ct => decryptRaw D key ct true)
      = .ok data := by
  have hmod := pkcs7Pad_length_mod data
  have hct : (cbcEncrypt (E key) iv (pkcs7Pad data)).length = (pkcs7Pad data).length :=
    cbcEncrypt_length (E key) hE iv (pkcs7Pad data) hmod hiv
  simp only [encryptRaw, if_pos, Except.bind, decryptRaw, SIMES_IV_SIZE,
    List.take_left' hiv, List.drop_left' hiv]
  rw [if_neg (by omega), if_neg (by omega),
    cbcDecrypt_cbcEncrypt (E key) (D key) hE hInv iv (pkcs7Pad data) hmod hiv]
  simp [pkcs7Unpad_pkcs7Pad]

theorem decryptRaw_encryptRaw_unpadded (E D : List Nat → List Nat → List Nat)
    (key iv data : List Nat) (hiv : iv.length = 16) (hmod : data.length % 16 = 0)
    (hE : ∀ b : List Nat, b.length = 16 → (E key b).length = 16)
    (hInv : ∀ b : List Nat, b.length = 16 → D key (E key b) = b) :
    (encryptRaw E key iv data false).bind (fun ct => decryptRaw D key ct false)
      = .ok data := by
  have hct : (cbcEncrypt (E key) iv data).length = data.length :=
    cbcEncrypt_length (E key) hE iv data hmod hiv
  simp only [encryptRaw, Bool.false_eq_true, if_false, if_neg (by omega : ¬data.length % 16 ≠ 0),
    Except.bind, decryptRaw, SIMES_IV_SIZE, List.take_left' hiv, List.drop_left' hiv]
  rw [if_neg (by omega), if_neg (by omega),
    cbcDecrypt_cbcEncrypt (E key) (D key) hE hInv iv data hmod hiv]

/-! Helper lemmas about the socket model and recv_all. -/

theorem sockRecv_timeout (s : Sock) (n : Nat) :
    ((sockRecv s n).2).timeout = s.timeout := by
  rcases s with ⟨chunks, t⟩
  cases chunks with
  | nil => rfl
  | cons c rest =>
    simp only [sockRecv]
    split <;> rfl

theorem sockRecv_flatten (s : Sock) (n : Nat) :
    (sockRecv s n).1 ++ (sockRecv s n).2.chunks.flatten = s.chunks.flatten := by
  rcases s with ⟨chunks, t⟩
  cases chunks with
  | nil => rfl
  | cons c rest =>
    simp only [sockRecv]
    split
    · simp [List.flatten_cons]
    · simp only [List.flatten_cons, ← List.append_assoc, List.take_append_drop]

theorem sockRecv_length_le (s : Sock) (n : Nat) : (sockRecv s n).1.length ≤ n := by
  rcases s with ⟨chunks, t⟩
  cases chunks with
  | nil => simp [sockRecv]
  | cons c rest =>
    simp only [sockRecv]
    split
    · next h => simpa using h
    · show (c.take n).length ≤ n
      rw [List.length_take]
      omega

theorem sockRecv_ne_nil (s : Sock) (n : Nat) (hn : 1 ≤ n)
    (hne : ∀ c ∈ s.chunks, c ≠ []) (hflat : s.chunks.flatten ≠ []) :
    (sockRecv s n).1 ≠ [] := by
  rcases s with ⟨chunks, t⟩
  cases chunks with
  | nil => exact absurd rfl hflat
  | cons c rest =>
    have hc : c ≠ [] := hne c (List.mem_cons_self c rest)
    have hcpos : 0 < c.length := List.length_pos.mpr hc
    simp only [sockRecv]
    split
    · exact hc
    · intro habs
      have habs2 : List.take n c = [] := habs
      have h0 := congrArg List.length habs2
      rw [List.length_take] at h0
      simp only [List.length_nil] at h0
      omega

theorem sockRecv_good (s : Sock) (n : Nat) (hne : ∀ c ∈ s.chunks, c ≠ []) :
    ∀ c ∈ (sockRecv s n).2.chunks, c ≠ [] := by
  rcases s with ⟨chunks, t⟩
  cases chunks with
  | nil => exact hne
  | cons c rest =>
    simp only [sockRecv]
    split
    · exact fun c' hc' => hne c' (List.mem_cons_of_mem _ hc')
    · intro c' hc'
      rcases List.mem_cons.mp hc' with h | h
      · subst h
        intro habs
        have := congrArg List.length habs
        simp [List.length_drop] at this
        omega
      · exact hne c' (List.mem_cons_of_mem _ h)

theorem recvAllAux_timeout : ∀ fuel (sock : Sock) (data : List Nat) (expected : Nat)
    (d : List Nat) (sock' : Sock),
    recvAllAux fuel sock data expected = .ok (d, sock') → sock'.timeout = sock.timeout := by
  intro fuel
  induction fuel with
  | zero =>
    intro sock data expected d sock' h
    exact Except.noConfusion h
  | succ n ih =>
    intro sock data expected d sock' h
    rw [recvAllAux] at h
    split at h
    · rcases h1 : sockRecv sock (expected - data.length) with ⟨packet, sock1⟩
      rw [h1] at h
      have h' : (if packet = []
          then (Except.error SimesError.connectionBroken : Except SimesError (List Nat × Sock))
          else recvAllAux n sock1 (data ++ packet) expected) = .ok (d, sock') := h
      split at h'
      · exact Except.noConfusion h'
      · have ht := sockRecv_timeout sock (expected - data.length)
        rw [h1] at ht
        rw [ih _ _ _ _ _ h', ht]
    · injection h with h'
      injection h' with h1 h2
      rw [← h2]

theorem recvAllAux_ok : ∀ fuel (sock : Sock) (data : List Nat) (expected : Nat),
    expected - data.length < fuel →
    (∀ c ∈ sock.chunks, c ≠ []) →
    expected ≤ data.length + sock.chunks.flatten.length →
    data.length ≤ expected →
    ∃ sock' : Sock,
      recvAllAux fuel sock data expected
        = .ok (data ++ sock.chunks.flatten.take (expected - data.length), sock')
      ∧ sock'.chunks.flatten = sock.chunks.flatten.drop (expected - data.length)
      ∧ (∀ c ∈ sock'.chunks, c ≠ [])
      ∧ sock'.timeout = sock.timeout := by
  intro fuel
  induction fuel with
  | zero =>
    intro sock data expected hf
    exact absurd hf (Nat.not_lt_zero _)
  | succ n ih =>
    intro sock data expected hf hne hle hdl
    by_cases hlt : data.length < expected
    · have hn1 : 1 ≤ expected - data.length := by omega
      have hflat_ne : sock.chunks.flatten ≠ [] := by
        intro h0
        rw [h0] at hle
        simp at hle
        omega
      rcases h1 : sockRecv sock (expected - data.length) with ⟨packet, sock1⟩
      have hpne : packet ≠ [] := by
        have := sockRecv_ne_nil sock _ hn1 hne hflat_ne
        rw [h1] at this; exact this
      have happ : packet ++ sock1.chunks.flatten = sock.chunks.flatten := by
        have := sockRecv_flatten sock (expected - data.length)
        rw [h1] at this; exact this
      have hplen : packet.length ≤ expected - data.length := by
        have := sockRecv_length_le sock (expected - data.length)
        rw [h1] at this; exact this
      have hgood1 : ∀ c ∈ sock1.chunks, c ≠ [] := by
        have := sockRecv_good sock (expected - data.length) hne
        rw [h1] at this; exact this
      have htime1 : sock1.timeout = sock.timeout := by
        have := sockRecv_timeout sock (expected - data.length)
        rw [h1] at this; exact this
      have hppos : 0 < packet.length := List.length_pos.mpr hpne
      have hflen : sock.chunks.flatten.length
          = packet.length + sock1.chunks.flatten.length := by
        have hl := congrArg List.length happ
        rw [List.length_append] at hl
        omega
      obtain ⟨sock', hrec, hflat', hgood', htime'⟩ := ih sock1 (data ++ packet) expected
        (by rw [List.length_append]; omega)
        hgood1
        (by rw [List.length_append]; omega)
        (by rw [List.length_append]; omega)
      have hidx : expected - (data ++ packet).length
          = expected - data.length - packet.length := by
        rw [List.length_append]; omega
      have hstep : recvAllAux (n + 1) sock data expected
          = recvAllAux n sock1 (data ++ packet) expected := by
        rw [recvAllAux, if_pos hlt, h1]
        exact if_neg hpne
      refine ⟨sock', ?_, ?_, hgood', by rw [htime', htime1]⟩
      · rw [hstep, hrec]
        have hshape : data ++ packet ++ sock1.chunks.flatten.take
            (expected - (data ++ packet).length)
            = data ++ sock.chunks.flatten.take (expected - data.length) := by
          rw [hidx, ← happ, List.take_append_eq_append_take,
            List.take_of_length_le hplen, List.append_assoc]
        rw [hshape]
      · rw [hflat', hidx, ← happ, List.drop_append_eq_append_drop,
          List.drop_of_length_le hplen, List.nil_append]
    · have h0 : expected - data.length = 0 := by omega
      refine ⟨sock, ?_, by rw [h0]; simp, hne, rfl⟩
      rw [recvAllAux, if_neg hlt, h0]
      simp

theorem recv_all_ok (sock : Sock) (expected : Nat)
    (hne : ∀ c ∈ sock.chunks, c ≠ [])
    (hlen : expected ≤ sock.chunks.flatten.length) :
    ∃ sock' : Sock,
      recv_all sock expected = .ok (sock.chunks.flatten.take expected, sock')
      ∧ sock'.chunks.flatten = sock.chunks.flatten.drop expected
      ∧ (∀ c ∈ sock'.chunks, c ≠ [])
      ∧ sock'.timeout = sock.timeout := by
  obtain ⟨sock', h, h2, h3, h4⟩ := recvAllAux_ok (expected + 1) sock [] expected
    (by simp) hne (by rw [List.length_nil, Nat.zero_add]; exact hlen) (by simp)
  simp only [List.length_nil, Nat.sub_zero, List.nil_append] at h h2
  exact ⟨sock', h, h2, h3, h4⟩

theorem recvAllAux_cases : ∀ fuel (sock : Sock) (data : List Nat) (expected : Nat),
    expected - data.length < fuel → data.length ≤ expected →
    (∃ d₂ sock', recvAllAux fuel sock data expected = .ok (data ++ d₂, sock')
      ∧ (data ++ d₂).length = expected
      ∧ d₂ ++ sock'.chunks.flatten = sock.chunks.flatten)
    ∨ recvAllAux fuel sock data expected = .error .connectionBroken := by
  intro fuel
  induction fuel with
  | zero =>
    intro sock data expected hf
    exact absurd hf (Nat.not_lt_zero _)
  | succ n ih =>
    intro sock data expected hf hdl
    by_cases hlt : data.length < expected
    · rcases h1 : sockRecv sock (expected - data.length) with ⟨packet, sock1⟩
      have happ : packet ++ sock1.chunks.flatten = sock.chunks.flatten := by
        have := sockRecv_flatten sock (expected - data.length)
        rw [h1] at this; exact this
      have hplen : packet.length ≤ expected - data.length := by
        have := sockRecv_length_le sock (expected - data.length)
        rw [h1] at this; exact this
      by_cases hpe : packet = []
      · right
        rw [recvAllAux, if_pos hlt, h1]
        exact if_pos hpe
      · have hppos : 0 < packet.length := List.length_pos.mpr hpe
        have hstep : recvAllAux (n + 1) sock data expected
            = recvAllAux n sock1 (data ++ packet) expected := by
          rw [recvAllAux, if_pos hlt, h1]
          exact if_neg hpe
        rcases ih sock1 (data ++ packet) expected
          (by rw [List.length_append]; omega)
          (by rw [List.length_append]; omega) with ⟨d₂, sock', hok, hlen', hcons⟩ | herr
        · left
          refine ⟨packet ++ d₂, sock', ?_, ?_, ?_⟩
          · rw [hstep, hok, List.append_assoc]
          · rw [← List.append_assoc]
            exact hlen'
          · rw [List.append_assoc, hcons, happ]
        · right
          rw [hstep]
          exact herr
    · left
      refine ⟨[], sock, ?_, by simp; omega, by simp⟩
      rw [recvAllAux, if_neg hlt]
      simp

theorem recv_all_timeout (sock : Sock) (n : Nat) (d : List Nat) (sock' : Sock)
    (h : recv_all sock n = .ok (d, sock')) : sock'.timeout = sock.timeout := by
  rw [recv_all] at h
  exact recvAllAux_timeout _ _ _ _ _ _ h

theorem settimeout_timeout (s : Sock) (t : Option Nat) : (settimeout s t).timeout = t := rfl

theorem receiveEncryptedRaw_state (D : List Nat → List Nat → List Nat) (sock : Sock)
    (keys_dict : KeyStore) (timeout : Option Nat) :
    (receiveEncryptedRaw D sock keys_dict timeout).2.2 = keys_dict
    ∧ (receiveEncryptedRaw D sock keys_dict timeout).2.1.timeout
      = (match (receiveEncryptedRaw D sock keys_dict timeout).1 with
         | .ok _ => none
         | .error _ => timeout) := by
  rw [receiveEncryptedRaw]
  cases h1 : recv_all (settimeout sock timeout) SIMES_SENDER_SIZE with
  | error e => simp [h1, settimeout]
  | ok p =>
    obtain ⟨sb, s1⟩ := p
    have ht1 : s1.timeout = timeout := by
      rw [recv_all_timeout _ _ _ _ h1, settimeout_timeout]
    cases h2 : recv_all s1 SIMES_MESSAGE_MAX_SIZE_VARIABLE with
    | error e => simp [h1, h2, ht1]
    | ok p2 =>
      obtain ⟨zb, s2⟩ := p2
      have ht2 : s2.timeout = timeout := by
        rw [recv_all_timeout _ _ _ _ h2, ht1]
      cases h3 : keys_dict.lookup (stripBytes sb) with
      | none => simp [h1, h2, h3, ht2]
      | some key =>
        cases h4 : recv_all s2 (intFromBytesBE zb) with
        | error e => simp [h1, h2, h3, h4, ht2]
        | ok p3 =>
          obtain ⟨ed, s3⟩ := p3
          have ht3 : s3.timeout = timeout := by
            rw [recv_all_timeout _ _ _ _ h4, ht2]
          cases h5 : decryptRaw D key ed true with
          | error e => simp [h1, h2, h3, h4, h5, ht3]
          | ok data => simp [h1, h2, h3, h4, h5, settimeout]

theorem receiveStatus_state (D : List Nat → List Nat → List Nat) (sock : Sock)
    (keys_dict : KeyStore) (timeout : Option Nat) :
    (receiveStatus D sock keys_dict timeout).2.2 = keys_dict
    ∧ (receiveStatus D sock keys_dict timeout).2.1.timeout
      = (match (receiveStatus D sock keys_dict timeout).1 with
         | .ok _ => none
         | .error _ => timeout) := by
  rw [receiveStatus]
  cases h1 : recv_all (settimeout sock timeout) SIMES_SENDER_SIZE with
  | error e => simp [h1, settimeout]
  | ok p =>
    obtain ⟨sb, s1⟩ := p
    have ht1 : s1.timeout = timeout := by
      rw [recv_all_timeout _ _ _ _ h1, settimeout_timeout]
    cases h3 : keys_dict.lookup (stripBytes sb) with
    | none => simp [h1, h3, ht1]
    | some key =>
      cases h4 : recv_all s1 (SIMES_IV_SIZE + SIMES_STATUS_MAX_SIZE) with
      | error e => simp [h1, h3, h4, ht1]
      | ok p3 =>
        obtain ⟨ed, s2⟩ := p3
        have ht2 : s2.timeout = timeout := by
          rw [recv_all_timeout _ _ _ _ h4, ht1]
        cases h5 : decryptRaw D key ed false with
        | error e => simp [h1, h3, h4, h5, ht2]
        | ok st => simp [h1, h3, h4, h5, settimeout]

theorem receiveEncryptedJSON_keys {α : Type} (D : List Nat → List Nat → List Nat)
    (jsonLoads : List Nat → Except SimesError α) (sock : Sock) (keys_dict : KeyStore) :
    (receiveEncryptedJSON D jsonLoads sock keys_dict).2.2 = keys_dict := by
  rw [receiveEncryptedJSON]
  rcases h1 : receiveEncryptedRaw D sock keys_dict none with ⟨r, s, k⟩
  have hk : k = keys_dict := by
    have := (receiveEncryptedRaw_state D sock keys_dict none).1
    rw [h1] at this
    exact this
  cases r with
  | error e => simpa using hk
  | ok p =>
    obtain ⟨sender, data⟩ := p
    cases h2 : jsonLoads data with
    | error e => simpa [h2] using hk
    | ok v => simpa [h2] using hk

theorem dropWhile_replicate_space (m : Nat) (bs : List Nat) :
    (List.replicate m 32 ++ bs).dropWhile isPySpace = bs.dropWhile isPySpace := by
  induction m with
  | zero => simp
  | succ n ih =>
    rw [List.replicate_succ, List.cons_append, List.dropWhile_cons]
    simp only [show isPySpace 32 = true from rfl, if_pos]
    exact ih

theorem stripBytes_padLeftWith (w : Nat) (bs : List Nat) :
    stripBytes (padLeftWith w 32 bs) = stripBytes bs := by
  simp only [stripBytes, padLeftWith, dropWhile_replicate_space]

theorem padLeftWith_length (w f : Nat) (bs : List Nat) (h : bs.length ≤ w) :
    (padLeftWith w f bs).length = w := by
  simp only [padLeftWith, List.length_append, List.length_replicate]
  omega

theorem natToBytesBE_length (l : Nat) : ∀ n, (natToBytesBE l n).length = l := by
  induction l with
  | zero => intro n; rfl
  | succ m ih =>
    intro n
    simp [natToBytesBE, ih]

theorem intFromBytesBE_concat (bs : List Nat) (b : Nat) :
    intFromBytesBE (bs ++ [b]) = 256 * intFromBytesBE bs + b := by
  simp [intFromBytesBE, List.foldl_append]

theorem intFromBytesBE_natToBytesBE (l : Nat) : ∀ n,
    intFromBytesBE (natToBytesBE l n) = n % 2 ^ (8 * l) := by
  induction l with
  | zero =>
    intro n
    simp [natToBytesBE, intFromBytesBE, Nat.mod_one]
  | succ m ih =>
    intro n
    rw [natToBytesBE, intFromBytesBE_concat, ih]
    have h2 : 2 ^ (8 * (m + 1)) = 256 * 2 ^ (8 * m) := by
      rw [Nat.mul_succ, Nat.pow_add]
      ring
    rw [h2, Nat.mod_mul]
    omega

theorem intFromBytesBE_natToBytesBE_of_lt (l n : Nat) (h : n < 2 ^ (8 * l)) :
    intFromBytesBE (natToBytesBE l n) = n := by
  rw [intFromBytesBE_natToBytesBE, Nat.mod_eq_of_lt h]

theorem status_vocab_facts : ∀ st ∈ SIMES_AVAILABLE_STATUS,
    st.length ≤ 16 ∧ stripBytes st = st := by decide

/-! Claim theorems. -/

/-- C1: for every byte sequence `p` (including the empty one) and every
valid key (modelled as an abstract block cipher `E key` with inverse
`D key` on 16-byte blocks), `decryptRaw (encryptRaw p true) true = p`; and
for every `p` whose length is a multiple of 16, the same with padding
disabled. -/
theorem C1_encrypt_decrypt_roundtrip (E D : List Nat → List Nat → List Nat)
    (key iv p : List Nat) (hiv : iv.length = 16)
    (hE : ∀ b : List Nat, b.length = 16 → (E key b).length = 16)
    (hInv : ∀ b : List Nat, b.length = 16 → D key (E key b) = b) :
    (encryptRaw E key iv p true).bind (fun ct => decryptRaw D key ct true) = .ok p
    ∧ (p.length % 16 = 0 →
      (encryptRaw E key iv p false).bind (fun ct => decryptRaw D key ct false) = .ok p) :=
  ⟨decryptRaw_encryptRaw_padded E D key iv p hiv hE hInv,
   fun hmod => decryptRaw_encryptRaw_unpadded E D key iv p hiv hmod hE hInv⟩

/-- Witness for C1 at a concrete cipher (identity block function), IV and
plaintexts. -/
theorem C1_witness :
    (encryptRaw (fun _ b => b) [] (List.replicate 16 0) [1, 2, 3] true).bind
      (fun ct => decryptRaw (fun _ b => b) [] ct true) = .ok [1, 2, 3]
    ∧ (encryptRaw (fun _ b => b) [] (List.replicate 16 0) (List.replicate 16 5) false).bind
      (fun ct => decryptRaw (fun _ b => b) [] ct false) = .ok (List.replicate 16 5) :=
  ⟨(C1_encrypt_decrypt_roundtrip (fun _ b => b) (fun _ b => b) [] (List.replicate 16 0)
      [1, 2, 3] (by decide) (fun _ h => h) (fun _ _ => rfl)).1,
   (C1_encrypt_decrypt_roundtrip (fun _ b => b) (fun _ b => b) [] (List.replicate 16 0)
      (List.replicate 16 5) (by decide) (fun _ h => h) (fun _ _ => rfl)).2 (by decide)⟩

/-- C4 (code bug): at a concrete input whose decryption has ill-formed
PKCS7 padding (decrypted last byte 0), `decryptRaw` with padding enabled
propagates the library's `ValueError` instead of raising the module's own
`PaddingValidationError`; with padding disabled the same input decrypts
without any validation. -/
theorem C4_padding_error_evaluation :
    decryptRaw (fun _ b => b) [] (List.replicate 32 0) true = .error .valueError
    ∧ SimesError.valueError ≠ SimesError.paddingValidation
    ∧ decryptRaw (fun _ b => b) [] (List.replicate 32 0) false
        = .ok (List.replicate 16 0) := by decide

/-- C2 counterexample: `receiveStatus` with `timeout = some 7` on a stream
whose 16-byte sender field resolves to no key raises `UnknownSenderError`
and leaves the transport timeout set to `some 7`, not restored to
blocking. -/
theorem C2_counterexample :
    (receiveStatus (fun _ b => b) (Sock.mk [List.replicate 16 66] none) [] (some 7)).1
      = .error .unknownSender
    ∧ (receiveStatus (fun _ b => b) (Sock.mk [List.replicate 16 66] none) [] (some 7)).2.1.timeout
      = some 7
    ∧ some 7 ≠ (none : Option Nat) := by decide

/-- C2 (amended): `receiveEncryptedRaw` and `receiveStatus` set the given
timeout on entry and restore the blocking (no-timeout) mode only on the
successful-return path; every error exit leaves the transport with the
timeout still applied. -/
theorem C2_amended_timeout_restored_only_on_success
    (D : List Nat → List Nat → List Nat) (sock : Sock) (keys_dict : KeyStore)
    (t : Option Nat) :
    ((receiveEncryptedRaw D sock keys_dict t).2.1.timeout
      = match (receiveEncryptedRaw D sock keys_dict t).1 with
        | .ok _ => none
        | .error _ => t)
    ∧ ((receiveStatus D sock keys_dict t).2.1.timeout
      = match (receiveStatus D sock keys_dict t).1 with
        | .ok _ => none
        | .error _ => t) :=
  ⟨(receiveEncryptedRaw_state D sock keys_dict t).2,
   (receiveStatus_state D sock keys_dict t).2⟩

/-- C8: `recv_all` either returns exactly `n` bytes, which are a prefix of
the stream content (the rest remaining in the socket), or fails with the
connection-broken error. -/
theorem C8_recv_all_exact_or_broken (sock : Sock) (n : Nat) :
    (∃ d sock', recv_all sock n = .ok (d, sock') ∧ d.length = n
      ∧ d ++ sock'.chunks.flatten = sock.chunks.flatten)
    ∨ recv_all sock n = .error .connectionBroken := by
  rcases recvAllAux_cases (n + 1) sock [] n (by simp) (by simp)
    with ⟨d₂, sock', hok, hl, hc⟩ | herr
  · left
    refine ⟨d₂, sock', ?_, ?_, hc⟩
    · rw [recv_all]
      simpa using hok
    · simpa using hl
  · right
    rw [recv_all]
    exact herr

/-- C9: the receive operations return the key store exactly as supplied,
on every exit path (the module only ever reads `keys_dict`). -/
theorem C9_keystore_unchanged {α : Type} (D : List Nat → List Nat → List Nat)
    (jsonLoads : List Nat → Except SimesError α) (sock : Sock)
    (keys_dict : KeyStore) (t : Option Nat) :
    (receiveEncryptedRaw D sock keys_dict t).2.2 = keys_dict
    ∧ (receiveStatus D sock keys_dict t).2.2 = keys_dict
    ∧ (receiveEncryptedJSON D jsonLoads sock keys_dict).2.2 = keys_dict :=
  ⟨(receiveEncryptedRaw_state D sock keys_dict t).1,
   (receiveStatus_state D sock keys_dict t).1,
   receiveEncryptedJSON_keys D jsonLoads sock keys_dict⟩

/-- C10: with padding enabled, the output of `encryptRaw` is exactly
`16 + 16 * (len(p) / 16 + 1)` bytes long (IV plus PKCS7-padded CBC
ciphertext), so the cleartext length field reveals the plaintext length to
within one block. -/
theorem C10_encrypted_length (E : List Nat → List Nat → List Nat)
    (key iv data : List Nat) (hiv : iv.length = 16)
    (hE : ∀ b : List Nat, b.length = 16 → (E key b).length = 16) :
    ∃ ct, encryptRaw E key iv data true = .ok ct
      ∧ ct.length = 16 + 16 * (data.length / 16 + 1) := by
  refine ⟨iv ++ cbcEncrypt (E key) iv (pkcs7Pad data), by simp [encryptRaw], ?_⟩
  rw [List.length_append, hiv,
    cbcEncrypt_length (E key) hE iv (pkcs7Pad data) (pkcs7Pad_length_mod data) hiv,
    pkcs7Pad_length]

/-- Witness for C10: a 3-byte plaintext encrypts to a 32-byte ciphertext
body. -/
theorem C10_witness :
    ∃ ct, encryptRaw (fun _ b => b) [] (List.replicate 16 0) [1, 2, 3] true = .ok ct
      ∧ ct.length = 16 + 16 * (([1, 2, 3] : List Nat).length / 16 + 1) :=
  C10_encrypted_length (fun _ b => b) [] (List.replicate 16 0) [1, 2, 3]
    (by decide) (fun _ h => h)

/-- C6: for a sender of at most 16 bytes, the frame built by
`sendEncryptedRaw` is exactly the space-left-padded sender, then the
ciphertext length as a 16-byte big-endian integer, then the ciphertext
`iv ++ cbc`, whose encoded length is `len(iv) + len(cbc)`. -/
theorem C6_frame_layout (E : List Nat → List Nat → List Nat)
    (key iv sender data : List Nat)
    (hs : sender.length ≤ 16) (hiv : iv.length = 16)
    (hE : ∀ b : List Nat, b.length = 16 → (E key b).length = 16)
    (hsmall : data.length < 2 ^ 127) :
    ∃ ct, encryptRaw E key iv data true = .ok ct
      ∧ sendEncryptedRaw E iv sender data key
          = .ok (padLeftWith SIMES_SENDER_SIZE 32 sender
              ++ natToBytesBE 16 ct.length ++ ct)
      ∧ (natToBytesBE 16 ct.length).length = 16
      ∧ intFromBytesBE (natToBytesBE 16 ct.length) = ct.length
      ∧ ct.length = SIMES_IV_SIZE + (cbcEncrypt (E key) iv (pkcs7Pad data)).length := by
  have henc : encryptRaw E key iv data true
      = .ok (iv ++ cbcEncrypt (E key) iv (pkcs7Pad data)) := by
    simp [encryptRaw]
  have hcbc : (cbcEncrypt (E key) iv (pkcs7Pad data)).length = (pkcs7Pad data).length :=
    cbcEncrypt_length (E key) hE iv (pkcs7Pad data) (pkcs7Pad_length_mod data) hiv
  have hctlen : (iv ++ cbcEncrypt (E key) iv (pkcs7Pad data)).length
      = 16 + 16 * (data.length / 16 + 1) := by
    rw [List.length_append, hiv, hcbc, pkcs7Pad_length]
  have hlt : (iv ++ cbcEncrypt (E key) iv (pkcs7Pad data)).length < 2 ^ 128 := by
    rw [hctlen]
    omega
  refine ⟨iv ++ cbcEncrypt (E key) iv (pkcs7Pad data), henc, ?_,
    natToBytesBE_length 16 _, intFromBytesBE_natToBytesBE_of_lt 16 _ hlt, ?_⟩
  · have hitb : intToBytesBE (iv ++ cbcEncrypt (E key) iv (pkcs7Pad data)).length 16
        = .ok (natToBytesBE 16 (iv ++ cbcEncrypt (E key) iv (pkcs7Pad data)).length) := by
      rw [intToBytesBE,
        if_pos (show (iv ++ cbcEncrypt (E key) iv (pkcs7Pad data)).length
          < 2 ^ (8 * 16) from hlt)]
    simp only [sendEncryptedRaw, henc]
    rw [if_neg (show ¬sender.length > SIMES_SENDER_SIZE from by
      simp only [SIMES_SENDER_SIZE]; omega)]
    rw [if_neg (show ¬(iv ++ cbcEncrypt (E key) iv (pkcs7Pad data)).length
        > SIMES_MESSAGE_MAX_SIZE from by
      simp only [SIMES_MESSAGE_MAX_SIZE, SIMES_MESSAGE_MAX_SIZE_VARIABLE]
      omega)]
    simp only [hitb, natToBytesBE_length, SIMES_MESSAGE_MAX_SIZE_VARIABLE,
      Nat.sub_self, List.replicate_zero, List.nil_append]
  · rw [List.length_append, hiv]
    rfl

/-- Witness for C6 at a concrete cipher, IV, sender and payload. -/
theorem C6_witness :
    ∃ ct, encryptRaw (fun _ b => b) [5] (List.replicate 16 0) [1, 2, 3] true = .ok ct
      ∧ sendEncryptedRaw (fun _ b => b) (List.replicate 16 0) [99] [1, 2, 3] [5]
          = .ok (padLeftWith SIMES_SENDER_SIZE 32 [99]
              ++ natToBytesBE 16 ct.length ++ ct)
      ∧ (natToBytesBE 16 ct.length).length = 16
      ∧ intFromBytesBE (natToBytesBE 16 ct.length) = ct.length
      ∧ ct.length = SIMES_IV_SIZE
          + (cbcEncrypt ((fun _ b => b) [5]) (List.replicate 16 0) (pkcs7Pad [1, 2, 3])).length :=
  C6_frame_layout (fun _ b => b) [5] (List.replicate 16 0) [99] [1, 2, 3]
    (by decide) (by decide) (fun _ h => h) (by norm_num)

theorem sendEncryptedRaw_error_cases (E : List Nat → List Nat → List Nat)
    (iv sender data key : List Nat) :
    (sender.length > 16 → sendEncryptedRaw E iv sender data key = .error .nameTooLong)
    ∧ (sender.length ≤ 16 →
        (iv ++ cbcEncrypt (E key) iv (pkcs7Pad data)).length > 2 ^ 128 →
        sendEncryptedRaw E iv sender data key = .error .messageTooLong)
    ∧ (sender.length ≤ 16 →
        (iv ++ cbcEncrypt (E key) iv (pkcs7Pad data)).length = 2 ^ 128 →
        sendEncryptedRaw E iv sender data key = .error .overflowError) := by
  have henc : encryptRaw E key iv data true
      = .ok (iv ++ cbcEncrypt (E key) iv (pkcs7Pad data)) := by simp [encryptRaw]
  refine ⟨fun h => ?_, fun h1 h2 => ?_, fun h1 h2 => ?_⟩
  · simp only [sendEncryptedRaw, henc]
    rw [if_pos (show sender.length > SIMES_SENDER_SIZE from h)]
  · simp only [sendEncryptedRaw, henc]
    rw [if_neg (show ¬sender.length > SIMES_SENDER_SIZE from by
        simp only [SIMES_SENDER_SIZE]; omega),
      if_pos (show (iv ++ cbcEncrypt (E key) iv (pkcs7Pad data)).length
        > SIMES_MESSAGE_MAX_SIZE from h2)]
  · have hitb : intToBytesBE (iv ++ cbcEncrypt (E key) iv (pkcs7Pad data)).length
        SIMES_MESSAGE_MAX_SIZE_VARIABLE = .error .overflowError := by
      rw [intToBytesBE, if_neg (show ¬(iv ++ cbcEncrypt (E key) iv (pkcs7Pad data)).length
          < 2 ^ (8 * SIMES_MESSAGE_MAX_SIZE_VARIABLE) from by
        rw [show (2 : Nat) ^ (8 * SIMES_MESSAGE_MAX_SIZE_VARIABLE) = 2 ^ 128 from rfl]
        omega)]
    simp only [sendEncryptedRaw, henc]
    rw [if_neg (show ¬sender.length > SIMES_SENDER_SIZE from by
        simp only [SIMES_SENDER_SIZE]; omega),
      if_neg (show ¬(iv ++ cbcEncrypt (E key) iv (pkcs7Pad data)).length
        > SIMES_MESSAGE_MAX_SIZE from by
        rw [show SIMES_MESSAGE_MAX_SIZE = 2 ^ 128 from rfl]
        omega)]
    simp only [hitb]

/-- C7 counterexample: for a plaintext whose encrypted length is exactly
`2 ^ 128`, `sendEncryptedRaw` does not raise `MessageTooLongError` (the
module checks `len > 2 ^ 128`, not `len >= 2 ^ 128`); it fails instead
with the `OverflowError` of the 16-byte length encoding. -/
theorem C7_counterexample :
    (encryptRaw (fun _ b => b) [] (List.replicate 16 0)
        (List.replicate (16 * (2 ^ 124 - 2)) 0) true).map (fun ct => ct.length)
      = .ok (2 ^ 128)
    ∧ sendEncryptedRaw (fun _ b => b) (List.replicate 16 0) []
        (List.replicate (16 * (2 ^ 124 - 2)) 0) []
      = .error .overflowError
    ∧ SimesError.overflowError ≠ SimesError.messageTooLong := by
  have hE : ∀ b : List Nat, b.length = 16 → ((fun (_ b : List Nat) => b) [] b).length = 16 :=
    fun _ h => h
  have hiv : (List.replicate 16 (0 : Nat)).length = 16 := List.length_replicate 16 0
  have hlen : (List.replicate (16 * (2 ^ 124 - 2)) (0 : Nat)).length
      = 16 * (2 ^ 124 - 2) := List.length_replicate _ 0
  have hct : (List.replicate 16 (0 : Nat) ++ cbcEncrypt ((fun (_ b : List Nat) => b) [])
      (List.replicate 16 0)
      (pkcs7Pad (List.replicate (16 * (2 ^ 124 - 2)) 0))).length = 2 ^ 128 := by
    rw [List.length_append, hiv,
      cbcEncrypt_length _ hE _ _ (pkcs7Pad_length_mod _) hiv, pkcs7Pad_length, hlen,
      Nat.mul_div_cancel_left (2 ^ 124 - 2) (show 0 < 16 by omega)]
    norm_num
  have henc : encryptRaw (fun _ b => b) [] (List.replicate 16 0)
      (List.replicate (16 * (2 ^ 124 - 2)) 0) true
      = .ok (List.replicate 16 0 ++ cbcEncrypt ((fun (_ b : List Nat) => b) [])
          (List.replicate 16 0) (pkcs7Pad (List.replicate (16 * (2 ^ 124 - 2)) 0))) := rfl
  have hmap : (Except.ok (List.replicate 16 0 ++ cbcEncrypt ((fun (_ b : List Nat) => b) [])
        (List.replicate 16 0) (pkcs7Pad (List.replicate (16 * (2 ^ 124 - 2)) 0)))
        : Except SimesError (List Nat)).map (fun ct => ct.length)
      = .ok ((List.replicate 16 0 ++ cbcEncrypt ((fun (_ b : List Nat) => b) [])
        (List.replicate 16 0) (pkcs7Pad (List.replicate (16 * (2 ^ 124 - 2)) 0))).length) := rfl
  refine ⟨by rw [henc, hmap, hct], ?_, by decide⟩
  exact (sendEncryptedRaw_error_cases (fun _ b => b) (List.replicate 16 0) []
    (List.replicate (16 * (2 ^ 124 - 2)) 0) []).2.2 (Nat.zero_le 16) hct

/-- C7 (amended): `sendEncryptedRaw` raises `NameTooLongError` (writing
nothing) for a sender longer than 16 bytes; it raises `MessageTooLongError`
only when the encrypted payload length *exceeds* `2 ^ 128`, while a length
of exactly `2 ^ 128` slips past that check and fails with the length
encoding's `OverflowError` instead. -/
theorem C7_amended_send_validation (E : List Nat → List Nat → List Nat)
    (iv sender data key : List Nat) :
    (sender.length > 16 → sendEncryptedRaw E iv sender data key = .error .nameTooLong)
    ∧ (sender.length ≤ 16 →
        (iv ++ cbcEncrypt (E key) iv (pkcs7Pad data)).length > 2 ^ 128 →
        sendEncryptedRaw E iv sender data key = .error .messageTooLong)
    ∧ (sender.length ≤ 16 →
        (iv ++ cbcEncrypt (E key) iv (pkcs7Pad data)).length = 2 ^ 128 →
        sendEncryptedRaw E iv sender data key = .error .overflowError) :=
  sendEncryptedRaw_error_cases E iv sender data key

/-- Witness for the amended C7: a 17-byte sender is rejected with
`NameTooLongError`. -/
theorem C7_amended_witness :
    sendEncryptedRaw (fun _ b => b) (List.replicate 16 0) (List.replicate 17 65) [1] []
      = .error .nameTooLong :=
  (C7_amended_send_validation (fun _ b => b) (List.replicate 16 0)
    (List.replicate 17 65) [1] []).1 (by simp)

/-- C3 counterexample: `receiveEncryptedRaw` with an unknown sender does
NOT stop after the 16 sender bytes — on a 32-byte stream it leaves nothing
unread (it also consumed the 16-byte length field before the key check). -/
theorem C3_counterexample :
    (receiveEncryptedRaw (fun _ b => b)
        (Sock.mk [List.replicate 16 65, List.replicate 16 65] none) [] none).1
      = .error .unknownSender
    ∧ (receiveEncryptedRaw (fun _ b => b)
        (Sock.mk [List.replicate 16 65, List.replicate 16 65] none) [] none).2.1.chunks.flatten
      ≠ (Sock.mk [List.replicate 16 65, List.replicate 16 65] none).chunks.flatten.drop 16 := by
  decide

/-- C3 (amended): with a sender that does not resolve in the key store,
`receiveStatus` raises `UnknownSenderError` after consuming exactly the 16
sender bytes, while `receiveEncryptedRaw` reads both the sender field and
the 16-byte length field before the key-store check and so consumes
exactly 32 bytes. -/
theorem C3_amended_unknown_sender_consumption (D : List Nat → List Nat → List Nat)
    (sock : Sock) (keys_dict : KeyStore) (t : Option Nat)
    (hne : ∀ c ∈ sock.chunks, c ≠ [])
    (hlen : 32 ≤ sock.chunks.flatten.length)
    (hlook : keys_dict.lookup (stripBytes (sock.chunks.flatten.take 16)) = none) :
    (receiveStatus D sock keys_dict t).1 = .error .unknownSender
    ∧ (receiveStatus D sock keys_dict t).2.1.chunks.flatten
        = sock.chunks.flatten.drop 16
    ∧ (receiveEncryptedRaw D sock keys_dict t).1 = .error .unknownSender
    ∧ (receiveEncryptedRaw D sock keys_dict t).2.1.chunks.flatten
        = sock.chunks.flatten.drop 32 := by
  have hne' : ∀ c ∈ (settimeout sock t).chunks, c ≠ [] := hne
  have hlen1 : SIMES_SENDER_SIZE ≤ (settimeout sock t).chunks.flatten.length := by
    show 16 ≤ sock.chunks.flatten.length
    omega
  obtain ⟨s1, h1, hf1, hg1, ht1⟩ :=
    recv_all_ok (settimeout sock t) SIMES_SENDER_SIZE hne' hlen1
  have hf1' : s1.chunks.flatten = sock.chunks.flatten.drop 16 := hf1
  have hl1 : s1.chunks.flatten.length = sock.chunks.flatten.length - 16 := by
    rw [hf1', List.length_drop]
  have hlook1 : keys_dict.lookup (stripBytes
      ((settimeout sock t).chunks.flatten.take SIMES_SENDER_SIZE)) = none := hlook
  have hrs : receiveStatus D sock keys_dict t
      = (.error .unknownSender, s1, keys_dict) := by
    simp only [receiveStatus, h1, hlook1]
  have hlen2 : SIMES_MESSAGE_MAX_SIZE_VARIABLE ≤ s1.chunks.flatten.length := by
    show 16 ≤ s1.chunks.flatten.length
    omega
  obtain ⟨s2, h2, hf2, hg2, ht2⟩ :=
    recv_all_ok s1 SIMES_MESSAGE_MAX_SIZE_VARIABLE hg1 hlen2
  have hf2' : s2.chunks.flatten = sock.chunks.flatten.drop 32 := by
    have hx : s2.chunks.flatten = s1.chunks.flatten.drop 16 := hf2
    rw [hx, hf1', List.drop_drop]
  have hre : receiveEncryptedRaw D sock keys_dict t
      = (.error .unknownSender, s2, keys_dict) := by
    simp only [receiveEncryptedRaw, h1, h2, hlook1]
  exact ⟨by rw [hrs], by rw [hrs]; exact hf1', by rw [hre], by rw [hre]; exact hf2'⟩

/-- Witness for the amended C3 at a concrete 32-byte stream and empty key
store. -/
theorem C3_amended_witness :
    (receiveStatus (fun _ b => b)
        (Sock.mk [List.replicate 16 66, List.replicate 16 66] none) [] none).1
      = .error .unknownSender
    ∧ (receiveStatus (fun _ b => b)
        (Sock.mk [List.replicate 16 66, List.replicate 16 66] none) [] none).2.1.chunks.flatten
      = (Sock.mk [List.replicate 16 66, List.replicate 16 66] none).chunks.flatten.drop 16
    ∧ (receiveEncryptedRaw (fun _ b => b)
        (Sock.mk [List.replicate 16 66, List.replicate 16 66] none) [] none).1
      = .error .unknownSender
    ∧ (receiveEncryptedRaw (fun _ b => b)
        (Sock.mk [List.replicate 16 66, List.replicate 16 66] none) [] none).2.1.chunks.flatten
      = (Sock.mk [List.replicate 16 66, List.replicate 16 66] none).chunks.flatten.drop 32 :=
  C3_amended_unknown_sender_consumption (fun _ b => b)
    (Sock.mk [List.replicate 16 66, List.replicate 16 66] none) [] none
    (by decide) (by decide) (by decide)

/-- C5: sending any vocabulary status token with `sendStatus` (sender of
at most 16 bytes) produces a 48-byte frame which `receiveStatus`, given the
matching key for the trimmed sender, decodes back to exactly the trimmed
sender and the original token. -/
theorem C5_status_roundtrip (E D : List Nat → List Nat → List Nat)
    (key iv sender status : List Nat) (keys_dict : KeyStore)
    (hstatus : status ∈ SIMES_AVAILABLE_STATUS)
    (hsender : sender.length ≤ 16)
    (hiv : iv.length = 16)
    (hk : keys_dict.lookup (stripBytes sender) = some key)
    (hE : ∀ b : List Nat, b.length = 16 → (E key b).length = 16)
    (hInv : ∀ b : List Nat, b.length = 16 → D key (E key b) = b) :
    ∃ msg, sendStatus E iv sender status key = .ok msg ∧ msg.length = 48
      ∧ (receiveStatus D (Sock.mk [msg] none) keys_dict none).1
          = .ok (stripBytes sender, status) := by
  have hstat16 : status.length ≤ 16 := (status_vocab_facts status hstatus).1
  have hstrip_status : stripBytes status = status := (status_vocab_facts status hstatus).2
  have hsb_len : (padLeftWith SIMES_SENDER_SIZE 32 sender).length = 16 :=
    padLeftWith_length SIMES_SENDER_SIZE 32 sender hsender
  have hsb_len' : (padLeftWith SIMES_SENDER_SIZE 32 sender).length = SIMES_SENDER_SIZE :=
    hsb_len
  have hstb_len : (padLeftWith SIMES_STATUS_MAX_SIZE 32 status).length = 16 :=
    padLeftWith_length SIMES_STATUS_MAX_SIZE 32 status hstat16
  have hstb_mod : (padLeftWith SIMES_STATUS_MAX_SIZE 32 status).length % 16 = 0 := by
    rw [hstb_len]
  have henc : encryptRaw E key iv (padLeftWith SIMES_STATUS_MAX_SIZE 32 status) false
      = .ok (iv ++ cbcEncrypt (E key) iv (padLeftWith SIMES_STATUS_MAX_SIZE 32 status)) := by
    rw [encryptRaw, if_neg (show ¬(false = true) by simp),
      if_neg (show ¬((padLeftWith SIMES_STATUS_MAX_SIZE 32 status).length % 16 ≠ 0) by
        rw [hstb_mod]; omega)]
  have hct_len : (cbcEncrypt (E key) iv (padLeftWith SIMES_STATUS_MAX_SIZE 32 status)).length
      = 16 := by
    rw [cbcEncrypt_length (E key) hE iv _ hstb_mod hiv, hstb_len]
  have hsend : sendStatus E iv sender status key
      = .ok (padLeftWith SIMES_SENDER_SIZE 32 sender
          ++ (iv ++ cbcEncrypt (E key) iv (padLeftWith SIMES_STATUS_MAX_SIZE 32 status))) := by
    rw [sendStatus, if_neg (not_not_intro hstatus),
      if_neg (show ¬sender.length > SIMES_SENDER_SIZE by
        simp only [SIMES_SENDER_SIZE]; omega)]
    simp only [henc]
  have hmsg_len : (padLeftWith SIMES_SENDER_SIZE 32 sender
      ++ (iv ++ cbcEncrypt (E key) iv (padLeftWith SIMES_STATUS_MAX_SIZE 32 status))).length
      = 48 := by
    rw [List.length_append, List.length_append, hsb_len, hiv, hct_len]
  have hflat : (settimeout (Sock.mk [padLeftWith SIMES_SENDER_SIZE 32 sender
      ++ (iv ++ cbcEncrypt (E key) iv (padLeftWith SIMES_STATUS_MAX_SIZE 32 status))] none)
        none).chunks.flatten
      = padLeftWith SIMES_SENDER_SIZE 32 sender
        ++ (iv ++ cbcEncrypt (E key) iv (padLeftWith SIMES_STATUS_MAX_SIZE 32 status)) := by
    show List.flatten [padLeftWith SIMES_SENDER_SIZE 32 sender
      ++ (iv ++ cbcEncrypt (E key) iv (padLeftWith SIMES_STATUS_MAX_SIZE 32 status))] = _
    simp
  have hne' : ∀ c ∈ (settimeout (Sock.mk [padLeftWith SIMES_SENDER_SIZE 32 sender
      ++ (iv ++ cbcEncrypt (E key) iv (padLeftWith SIMES_STATUS_MAX_SIZE 32 status))] none)
        none).chunks, c ≠ [] := by
    intro c hc
    rw [show (settimeout (Sock.mk [padLeftWith SIMES_SENDER_SIZE 32 sender
      ++ (iv ++ cbcEncrypt (E key) iv (padLeftWith SIMES_STATUS_MAX_SIZE 32 status))] none)
        none).chunks
      = [padLeftWith SIMES_SENDER_SIZE 32 sender
        ++ (iv ++ cbcEncrypt (E key) iv (padLeftWith SIMES_STATUS_MAX_SIZE 32 status))]
      from rfl, List.mem_singleton] at hc
    subst hc
    intro habs
    have hz := congrArg List.length habs
    rw [hmsg_len] at hz
    exact absurd hz (by decide)
  have hlen1 : SIMES_SENDER_SIZE ≤ (settimeout (Sock.mk [padLeftWith SIMES_SENDER_SIZE 32 sender
      ++ (iv ++ cbcEncrypt (E key) iv (padLeftWith SIMES_STATUS_MAX_SIZE 32 status))] none)
        none).chunks.flatten.length := by
    show 16 ≤ _
    rw [hflat, hmsg_len]
    omega
  obtain ⟨s1, h1, hf1, hg1, ht1⟩ :=
    recv_all_ok (settimeout (Sock.mk [padLeftWith SIMES_SENDER_SIZE 32 sender
      ++ (iv ++ cbcEncrypt (E key) iv (padLeftWith SIMES_STATUS_MAX_SIZE 32 status))] none)
        none) SIMES_SENDER_SIZE hne' hlen1
  have htake : (settimeout (Sock.mk [padLeftWith SIMES_SENDER_SIZE 32 sender
      ++ (iv ++ cbcEncrypt (E key) iv (padLeftWith SIMES_STATUS_MAX_SIZE 32 status))] none)
        none).chunks.flatten.take SIMES_SENDER_SIZE
      = padLeftWith SIMES_SENDER_SIZE 32 sender := by
    rw [hflat]
    exact List.take_left' hsb_len'
  have h1' : recv_all (settimeout (Sock.mk [padLeftWith SIMES_SENDER_SIZE 32 sender
      ++ (iv ++ cbcEncrypt (E key) iv (padLeftWith SIMES_STATUS_MAX_SIZE 32 status))] none)
        none) SIMES_SENDER_SIZE
      = .ok (padLeftWith SIMES_SENDER_SIZE 32 sender, s1) := by
    rw [h1, htake]
  have hstrip : stripBytes (padLeftWith SIMES_SENDER_SIZE 32 sender) = stripBytes sender :=
    stripBytes_padLeftWith SIMES_SENDER_SIZE sender
  have hf1x : s1.chunks.flatten
      = iv ++ cbcEncrypt (E key) iv (padLeftWith SIMES_STATUS_MAX_SIZE 32 status) := by
    rw [hf1, hflat]
    exact List.drop_left' hsb_len'
  have hlen2 : SIMES_IV_SIZE + SIMES_STATUS_MAX_SIZE ≤ s1.chunks.flatten.length := by
    show 32 ≤ _
    rw [hf1x, List.length_append, hiv, hct_len]
  obtain ⟨s2, h2, hf2, hg2, ht2⟩ :=
    recv_all_ok s1 (SIMES_IV_SIZE + SIMES_STATUS_MAX_SIZE) hg1 hlen2
  have htake2 : s1.chunks.flatten.take (SIMES_IV_SIZE + SIMES_STATUS_MAX_SIZE)
      = iv ++ cbcEncrypt (E key) iv (padLeftWith SIMES_STATUS_MAX_SIZE 32 status) := by
    rw [hf1x]
    apply List.take_of_length_le
    rw [List.length_append, hiv, hct_len]
    exact Nat.le_refl 32
  have h2' : recv_all s1 (SIMES_IV_SIZE + SIMES_STATUS_MAX_SIZE)
      = .ok (iv ++ cbcEncrypt (E key) iv (padLeftWith SIMES_STATUS_MAX_SIZE 32 status), s2) := by
    rw [h2, htake2]
  have hdec : decryptRaw D key
      (iv ++ cbcEncrypt (E key) iv (padLeftWith SIMES_STATUS_MAX_SIZE 32 status)) false
      = .ok (padLeftWith SIMES_STATUS_MAX_SIZE 32 status) := by
    have h := decryptRaw_encryptRaw_unpadded E D key iv
      (padLeftWith SIMES_STATUS_MAX_SIZE 32 status) hiv hstb_mod hE hInv
    rw [henc] at h
    exact h
  have hstrip2 : stripBytes (padLeftWith SIMES_STATUS_MAX_SIZE 32 status) = status := by
    rw [stripBytes_padLeftWith, hstrip_status]
  have hrs : receiveStatus D (Sock.mk [padLeftWith SIMES_SENDER_SIZE 32 sender
      ++ (iv ++ cbcEncrypt (E key) iv (padLeftWith SIMES_STATUS_MAX_SIZE 32 status))] none)
        keys_dict none
      = (.ok (stripBytes sender, stripBytes (padLeftWith SIMES_STATUS_MAX_SIZE 32 status)),
          settimeout s2 none, keys_dict) := by
    simp only [receiveStatus, h1', hstrip, hk, h2', hdec]
  refine ⟨padLeftWith SIMES_SENDER_SIZE 32 sender
    ++ (iv ++ cbcEncrypt (E key) iv (padLeftWith SIMES_STATUS_MAX_SIZE 32 status)),
    hsend, hmsg_len, ?_⟩
  rw [hrs, hstrip2]

/-- Witness for C5: the token OK sent by sender c under a concrete
identity block cipher round-trips. -/
theorem C5_witness :
    ∃ msg, sendStatus (fun _ b => b) (List.replicate 16 7) [99] [79, 75] [5] = .ok msg
      ∧ msg.length = 48
      ∧ (receiveStatus (fun _ b => b) (Sock.mk [msg] none) [([99], [5])] none).1
          = .ok (stripBytes [99], [79, 75]) :=
  C5_status_roundtrip (fun _ b => b) (fun _ b => b) [5] (List.replicate 16 7) [99] [79, 75]
    [([99], [5])] (by decide) (by decide) (by decide) (by decide)
    (fun _ h => h) (fun _ _ => rfl)

example : pkcs7Pad [1, 2, 3] = [1, 2, 3] ++ List.replicate 13 13 := by decide
example : pkcs7Unpad (pkcs7Pad [1, 2, 3]) = .ok [1, 2, 3] := by decide
example :
    (encryptRaw (fun _ b => b) [] (List.replicate 16 0) [1, 2, 3] true).bind
      (fun ct => decryptRaw (fun _ b => b) [] ct true) = .ok [1, 2, 3] := by decide
